import Mathlib

/-!
Shallow embedding of the approval-checker engine
(`advanced-checker.js` with `findAndCheckApprovals`, and the basic
checker script with `checkApprovals`).  Raw uint256 values are carried
as `Nat` (the source uses arbitrary-precision `BigInt`), timestamps and
USD values as `ℚ` (the source's only floating-point arithmetic is the
final USD multiplication and the progress timing; we model those
exactly over the rationals), and fallible RPC calls as `Option`-valued
oracle functions packaged in a `ChainClient`.
-/

/-- Wallet / token / spender addresses are plain strings in the source. -/
abbrev Address := String

/-- The sentinel `ethers.MaxUint256` used for infinite-approval detection. -/
def maxUint256 : Nat := 2 ^ 256 - 1

/-- Strip trailing `'0'` characters, mirroring the fraction trimming of
`ethers.formatUnits`. -/
def stripTrailingZeros (s : String) : String :=
  String.mk ((s.data.reverse.dropWhile (fun c => c = '0')).reverse)

/-- Left-pad a digit string with `'0'` up to length `n`. -/
def padZeros (s : String) (n : Nat) : String :=
  String.mk (List.replicate (n - s.length) '0') ++ s

/-- Embedding of `ethers.formatUnits(value, decimals)` for non-negative
values: the integer quotient, a dot, and the fractional digits with
trailing zeros trimmed (at least one fractional digit is kept). -/
def formatUnits (value decimals : Nat) : String :=
  let whole := value / 10 ^ decimals
  let frac := value % 10 ^ decimals
  let fracStr := stripTrailingZeros (padZeros (toString frac) decimals)
  toString whole ++ "." ++ (if fracStr = "" then "0" else fracStr)

/-- One row of output, as pushed onto `results` by both scripts.  Raw
uint256 string fields are carried as `Nat`. -/
structure ApprovalRecord where
  walletAddress : Address
  tokenAddress : Address
  tokenSymbol : String
  spenderAddress : Address
  allowance : String
  rawAllowance : Nat
  isInfiniteApproval : Bool
  balance : String
  rawBalance : Nat
  exposedAmount : String
  rawExposedAmount : Nat
  price : Option ℚ
  exposedValueUSD : Option ℚ
deriving Repr, DecidableEq

/-- The record constructed for one (wallet, token, spender) triple: the
infinite-approval test, "∞" formatting, exposure computation
(`allowance > balance ? balance : allowance`), and USD valuation.  This
block is byte-identical in `findAndCheckApprovals` and `checkApprovals`. -/
def buildRecord (wallet tokenAddress symbol spender : Address)
    (allowance balance decimals : Nat) (price : Option ℚ) : ApprovalRecord :=
  let isInf : Bool := allowance == maxUint256
  let formattedAllowance := if isInf then "∞" else formatUnits allowance decimals
  let exposed := if isInf then balance
    else if allowance > balance then balance else allowance
  let formattedExposed := formatUnits exposed decimals
  let usd := price.map (fun p => ((exposed : ℚ) / (10 : ℚ) ^ decimals) * p)
  { walletAddress := wallet
    tokenAddress := tokenAddress
    tokenSymbol := symbol
    spenderAddress := spender
    allowance := formattedAllowance
    rawAllowance := allowance
    isInfiniteApproval := isInf
    balance := formatUnits balance decimals
    rawBalance := balance
    exposedAmount := formattedExposed
    rawExposedAmount := exposed
    price := price
    exposedValueUSD := usd }

/-- The fixed stablecoin symbol set used for price inference. -/
def stablecoinSymbols : List String :=
  ["USDT", "USDC", "DAI", "BUSD", "TUSD", "USDK", "GUSD"]

/-- Price resolution on the metadata success path: an explicit caller
price wins; otherwise a stablecoin symbol maps to 1; otherwise unknown. -/
def resolvePrice (explicitPrice : Option ℚ) (symbol : String) : Option ℚ :=
  match explicitPrice with
  | none => if symbol ∈ stablecoinSymbols then some 1 else none
  | some p => some p

/-- One caller-supplied token entry (`{address, price}`). -/
structure TokenInput where
  address : Address
  price : Option ℚ
deriving Repr, DecidableEq

/-- The chain RPC oracle.  `none` models a rejected call.  `tokenOk`
models whether token-level processing (contract construction) succeeds;
its failure reaches the per-token `catch`. -/
structure ChainClient where
  symbolDecimals : Address → Option (String × Nat)
  balanceOf : Address → Address → Option Nat
  allowanceOf : Address → Address → Address → Option Nat
  approvalEvents : Address → Address → Option (List Address)

/-- Whether token-level processing succeeds (separate from the RPC
oracle so witnesses can vary it): `true` means the per-token `try`
body is entered. -/
structure TokenGate where
  tokenOk : Address → Bool

/-- Metadata resolution for one token: on success, symbol/decimals from
the chain and inferred price; on failure the degraded placeholder
`symbol = "未知"`, `decimals = 18`, price from caller input only. -/
def tokenMeta (ch : ChainClient) (tok : TokenInput) : String × Nat × Option ℚ :=
  match ch.symbolDecimals tok.address with
  | some (s, d) => (s, d, resolvePrice tok.price s)
  | none => ("未知", 18, tok.price)

/-- Mutable run state: the `results` array and the `completedTasks`
counter. -/
structure RunState where
  results : List ApprovalRecord
  completedTasks : Nat
deriving Repr, DecidableEq

/-- First-occurrence deduplication via the `processedSpenders` set:
a spender already seen is skipped, otherwise it is kept and remembered. -/
def dedupFirstAux (seen : List Address) : List Address → List Address
  | [] => []
  | x :: xs =>
      if x ∈ seen then dedupFirstAux seen xs
      else x :: dedupFirstAux (x :: seen) xs

/-- Deduplicated spender sequence extracted from an event log, first
occurrence winning. -/
def dedupFirst (l : List Address) : List Address :=
  dedupFirstAux [] l

/-! ### Basic mode: `checkApprovals` (per-spender inner loop) -/

/-- One per-spender task in basic mode: fetch the allowance; on success
push a record, on failure only warn; in both cases the `finally` block
increments `completedTasks`. -/
def basicSpenderTask (ch : ChainClient) (tokenAddress : Address) (symbol : String)
    (decimals : Nat) (price : Option ℚ) (balance : Nat) (wallet : Address)
    (st : RunState) (spender : Address) : RunState :=
  match ch.allowanceOf tokenAddress wallet spender with
  | some allowance =>
      { results := st.results ++
          [buildRecord wallet tokenAddress symbol spender allowance balance decimals price]
        completedTasks := st.completedTasks + 1 }
  | none => { st with completedTasks := st.completedTasks + 1 }

/-- One token iteration in basic mode for a fixed wallet: resolve
metadata (degrading on failure), fetch the balance (defaulting to 0 on
failure), then run every spender task; a token-level failure instead
bumps the counter by `spenders.length` in the `catch`. -/
def basicTokenStep (ch : ChainClient) (g : TokenGate) (spenders : List Address)
    (wallet : Address) (st : RunState) (tok : TokenInput) : RunState :=
  if g.tokenOk tok.address then
    let meta := tokenMeta ch tok
    let balance := (ch.balanceOf tok.address wallet).getD 0
    spenders.foldl
      (basicSpenderTask ch tok.address meta.1 meta.2.1 meta.2.2 balance wallet) st
  else
    { st with completedTasks := st.completedTasks + spenders.length }

/-- Basic mode `checkApprovals`: aborts with `process.exit(1)` when the
spender list is empty, otherwise loops wallets (outer) × tokens (inner).
`Except.error 1` models the non-zero process exit. -/
def checkApprovals (ch : ChainClient) (g : TokenGate) (addresses : List Address)
    (tokens : List TokenInput) (spenders : List Address) : Except Nat RunState :=
  if spenders.length = 0 then Except.error 1
  else Except.ok <|
    addresses.foldl
      (fun st addr => tokens.foldl (basicTokenStep ch g spenders addr) st)
      { results := [], completedTasks := 0 }

/-! ### Advanced mode: `findAndCheckApprovals` -/

/-- One discovered spender in advanced mode: fetch the allowance; a
zero allowance is skipped (no record); otherwise a record is pushed;
an allowance failure only warns. -/
def advSpenderCheck (ch : ChainClient) (tokenAddress : Address) (symbol : String)
    (decimals : Nat) (price : Option ℚ) (balance : Nat) (wallet : Address)
    (acc : List ApprovalRecord) (spender : Address) : List ApprovalRecord :=
  match ch.allowanceOf tokenAddress wallet spender with
  | none => acc
  | some allowance =>
      if allowance = 0 then acc
      else acc ++
        [buildRecord wallet tokenAddress symbol spender allowance balance decimals price]

/-- One per-wallet task in advanced mode: fetch the balance (default 0
on failure), query the Approval events (an empty result on failure),
deduplicate spenders, check each; the `finally` block increments the
counter exactly once whatever happened. -/
def advAddressTask (ch : ChainClient) (tokenAddress : Address) (symbol : String)
    (decimals : Nat) (price : Option ℚ) (st : RunState) (wallet : Address) : RunState :=
  let balance := (ch.balanceOf tokenAddress wallet).getD 0
  let results :=
    match ch.approvalEvents tokenAddress wallet with
    | none => st.results
    | some evs =>
        (dedupFirst evs).foldl
          (advSpenderCheck ch tokenAddress symbol decimals price balance wallet)
          st.results
  { results := results, completedTasks := st.completedTasks + 1 }

/-- One token iteration in advanced mode: on success run every wallet
task; on a token-level failure the `catch` adds
`addresses.length - completedTasks % addresses.length` to the counter. -/
def advTokenStep (ch : ChainClient) (g : TokenGate) (addresses : List Address)
    (st : RunState) (tok : TokenInput) : RunState :=
  if g.tokenOk tok.address then
    let meta := tokenMeta ch tok
    addresses.foldl (advAddressTask ch tok.address meta.1 meta.2.1 meta.2.2) st
  else
    { st with completedTasks :=
        st.completedTasks + (addresses.length - st.completedTasks % addresses.length) }

/-- Advanced mode `findAndCheckApprovals` over the token list. -/
def findAndCheckApprovals (ch : ChainClient) (g : TokenGate) (addresses : List Address)
    (tokens : List TokenInput) : RunState :=
  tokens.foldl (advTokenStep ch g addresses) { results := [], completedTasks := 0 }

/-! ### Result aggregation, display policy, export -/

/-- Identity of a record for deduplication purposes. -/
def recordKey (r : ApprovalRecord) : Address × Address × Address :=
  (r.walletAddress, r.tokenAddress, r.spenderAddress)

/-- The display ceiling `MAX_DISPLAY_ROWS`. -/
def maxDisplayRows : Nat := 100

/-- Descending sort by known `exposedValueUSD` of the records that have
one, modelling `filter(... !== null).sort((a, b) => b - a)`. -/
def sortByValueDesc (results : List ApprovalRecord) : List ApprovalRecord :=
  (results.filter (fun r => r.exposedValueUSD.isSome)).mergeSort
    (fun a b => decide (b.exposedValueUSD.getD 0 ≤ a.exposedValueUSD.getD 0))

/-- The "important subset" built when the collection exceeds the
ceiling: top half-ceiling by USD value, plus up to half-ceiling
infinite approvals not already present (matched by wallet/token/spender),
capped at the ceiling. -/
def selectImportant (results : List ApprovalRecord) : List ApprovalRecord :=
  let highValueResults := (sortByValueDesc results).take (maxDisplayRows / 2)
  let infiniteResults :=
    (results.filter (fun r => r.isInfiniteApproval)).take (maxDisplayRows / 2)
  let importantResults := infiniteResults.foldl
    (fun acc r =>
      if acc.any (fun q =>
          q.walletAddress == r.walletAddress &&
          q.tokenAddress == r.tokenAddress &&
          q.spenderAddress == r.spenderAddress)
      then acc else acc ++ [r])
    highValueResults
  importantResults.take maxDisplayRows

/-- The records handed to the table renderer: the full collection when
small enough, the important subset beyond the ceiling. -/
def displaySelection (results : List ApprovalRecord) : List ApprovalRecord :=
  if results.length > maxDisplayRows then selectImportant results else results

/-- Aggregate statistics of `displayResults`, always computed over the
complete collection. -/
structure Summary where
  uniqueWallets : Nat
  uniqueTokens : Nat
  uniqueSpenders : Nat
  infiniteApprovals : Nat
  totalExposedValueUSD : ℚ
  exposedValueCount : Nat
deriving Repr, DecidableEq

/-- Summary computation over the full record collection. -/
def computeSummary (results : List ApprovalRecord) : Summary :=
  { uniqueWallets := (dedupFirst (results.map (fun r => r.walletAddress))).length
    uniqueTokens := (dedupFirst (results.map (fun r => r.tokenAddress))).length
    uniqueSpenders := (dedupFirst (results.map (fun r => r.spenderAddress))).length
    infiniteApprovals := (results.filter (fun r => r.isInfiniteApproval)).length
    totalExposedValueUSD := (results.filterMap (fun r => r.exposedValueUSD)).sum
    exposedValueCount := (results.filterMap (fun r => r.exposedValueUSD)).length }

/-- The CSV header line of `exportResults`. -/
def csvHeader : String :=
  "WalletAddress,TokenAddress,TokenSymbol,SpenderAddress,Allowance,Balance,ExposedAmount,Price,ExposedValueUSD,IsInfiniteApproval"

/-- One CSV data line (numeric rendering of the rational fields is
abstracted; unknown price/value render as the literal "unknown"). -/
def csvLine (r : ApprovalRecord) : String :=
  r.walletAddress ++ "," ++ r.tokenAddress ++ "," ++ r.tokenSymbol ++ "," ++
    r.spenderAddress ++ "," ++ r.allowance ++ "," ++ r.balance ++ "," ++
    r.exposedAmount ++ "," ++
    (match r.price with | some p => toString p | none => "unknown") ++ "," ++
    (match r.exposedValueUSD with | some v => toString v | none => "unknown") ++ "," ++
    (if r.isInfiniteApproval then "true" else "false")

/-- `exportResults` writes the header followed by one line per record
of the complete, untruncated collection. -/
def exportCsvLines (results : List ApprovalRecord) : List String :=
  csvHeader :: results.map csvLine

/-! ### Progress reporter

The percentage line is computed by the source in IEEE-754 binary64
arithmetic (`Math.floor((completedTasks / totalTasks) * 100)`), whose
rounding is observable: in doubles `(29/100)*100` is
`28.999999999999996`, so the floored percentage is 28, not 29.  The
model below rounds exactly as binary64 round-to-nearest, ties-to-even
on the normal range (counters below `2^53` convert exactly, and the
quotients that arise lie far inside the normal range, so no subnormal
or overflow case is reachable here). -/

/-- Round a rational to the nearest integer, ties going to the even
integer — the tie-breaking rule of IEEE-754 default rounding. -/
def roundNearestEven (q : ℚ) : ℤ :=
  if q - ⌊q⌋ < 1/2 then ⌊q⌋
  else if 1/2 < q - ⌊q⌋ then ⌊q⌋ + 1
  else if 2 ∣ ⌊q⌋ then ⌊q⌋ else ⌊q⌋ + 1

/-- The binary64 value nearest to a non-negative rational (normal
range): the 53-bit significand at the scale fixed by `⌊log₂ q⌋`,
rounded to nearest, ties to even. -/
def roundDouble (q : ℚ) : ℚ :=
  if q = 0 then 0
  else (roundNearestEven (q / 2 ^ (Int.log 2 q - 52)) : ℚ) * 2 ^ (Int.log 2 q - 52)

/-- The integer percentage exactly as the source computes it:
`Math.floor((completed / total) * 100)` with the division and the
multiplication each correctly rounded to binary64. -/
def percentOfJS (completed total : Nat) : ℤ :=
  ⌊roundDouble (roundDouble ((completed : ℚ) / total) * 100)⌋

/-- Inputs of one `updateProgress` call: wall-clock times in
milliseconds and the counters captured by the closure. -/
structure ProgressInput where
  force : Bool
  now : ℚ
  startTime : ℚ
  lastUpdate : ℚ
  lastProgress : ℤ
  completedTasks : Nat
  totalTasks : Nat

/-- The ETA in seconds: undefined (the "计算中..." placeholder) when no
task has completed, otherwise `(elapsed / completed) * (total - completed)`. -/
def etaSeconds (elapsed : ℚ) (completed total : Nat) : Option ℚ :=
  if completed = 0 then none
  else some ((elapsed / completed) * ((total : ℚ) - completed))

/-- Result of one `updateProgress` call: whether a status line was
emitted, the updated throttle state, and the ETA carried by the line. -/
structure ProgressOutput where
  emitted : Bool
  lastUpdate : ℚ
  lastProgress : ℤ
  eta : Option ℚ
deriving Repr, DecidableEq

/-- One `updateProgress` call: emit when forced, when 500ms elapsed
since the last emission, or when the integer percentage (as the program
computes it in doubles) increased; emitting refreshes
`lastUpdate`/`lastProgress` and computes the ETA. -/
def updateProgress (p : ProgressInput) : ProgressOutput :=
  if p.force || decide (500 ≤ p.now - p.lastUpdate) ||
      decide (p.lastProgress < percentOfJS p.completedTasks p.totalTasks) then
    { emitted := true
      lastUpdate := p.now
      lastProgress := percentOfJS p.completedTasks p.totalTasks
      eta := etaSeconds ((p.now - p.startTime) / 1000) p.completedTasks p.totalTasks }
  else
    { emitted := false
      lastUpdate := p.lastUpdate
      lastProgress := p.lastProgress
      eta := none }

/-! ### Closed forms of the two runs

The stateful folds above mirror the source loops; the following
definitions give the record collections they accumulate in a loop-free
form, proved equal below and used to reason about the output. -/

/-- Records contributed by one (wallet, token) pair in basic mode. -/
def basicTokenRecs (ch : ChainClient) (g : TokenGate) (spenders : List Address)
    (wallet : Address) (tok : TokenInput) : List ApprovalRecord :=
  if g.tokenOk tok.address then
    spenders.filterMap (fun sp =>
      (ch.allowanceOf tok.address wallet sp).map
        (fun al => buildRecord wallet tok.address (tokenMeta ch tok).1 sp al
          ((ch.balanceOf tok.address wallet).getD 0)
          (tokenMeta ch tok).2.1 (tokenMeta ch tok).2.2))
  else []

/-- All records of a basic-mode run. -/
def basicRunRecs (ch : ChainClient) (g : TokenGate) (addresses : List Address)
    (tokens : List TokenInput) (spenders : List Address) : List ApprovalRecord :=
  addresses.flatMap (fun a => tokens.flatMap (fun tok => basicTokenRecs ch g spenders a tok))

/-- Records contributed by one wallet for one token in advanced mode. -/
def advWalletRecs (ch : ChainClient) (tokenAddress : Address) (symbol : String)
    (decimals : Nat) (price : Option ℚ) (wallet : Address) : List ApprovalRecord :=
  match ch.approvalEvents tokenAddress wallet with
  | none => []
  | some evs =>
      (dedupFirst evs).filterMap (fun sp =>
        match ch.allowanceOf tokenAddress wallet sp with
        | none => none
        | some al =>
            if al = 0 then none
            else some (buildRecord wallet tokenAddress symbol sp al
              ((ch.balanceOf tokenAddress wallet).getD 0) decimals price))

/-- Records contributed by one token in advanced mode. -/
def advTokenRecs (ch : ChainClient) (g : TokenGate) (addresses : List Address)
    (tok : TokenInput) : List ApprovalRecord :=
  if g.tokenOk tok.address then
    addresses.flatMap (advWalletRecs ch tok.address (tokenMeta ch tok).1
      (tokenMeta ch tok).2.1 (tokenMeta ch tok).2.2)
  else []

/-- All records of an advanced-mode run. -/
def advRunRecs (ch : ChainClient) (g : TokenGate) (addresses : List Address)
    (tokens : List TokenInput) : List ApprovalRecord :=
  tokens.flatMap (advTokenRecs ch g addresses)

lemma basicSpenderTask_foldl (ch : ChainClient) (T : Address) (sym : String)
    (d : Nat) (pr : Option ℚ) (bal : Nat) (w : Address)
    (spenders : List Address) (st : RunState) :
    spenders.foldl (basicSpenderTask ch T sym d pr bal w) st =
      { results := st.results ++ spenders.filterMap (fun sp =>
          (ch.allowanceOf T w sp).map (fun al => buildRecord w T sym sp al bal d pr))
        completedTasks := st.completedTasks + spenders.length } := by
  induction spenders generalizing st with
  | nil => simp
  | cons sp rest ih =>
      simp only [List.foldl_cons, List.filterMap_cons, ih]
      cases h : ch.allowanceOf T w sp with
      | none =>
          simp [basicSpenderTask, h, RunState.mk.injEq]
          omega
      | some al =>
          simp [basicSpenderTask, h, RunState.mk.injEq]
          omega

lemma basicTokenStep_eq (ch : ChainClient) (g : TokenGate) (spenders : List Address)
    (w : Address) (st : RunState) (tok : TokenInput) :
    basicTokenStep ch g spenders w st tok =
      { results := st.results ++ basicTokenRecs ch g spenders w tok
        completedTasks := st.completedTasks + spenders.length } := by
  unfold basicTokenStep basicTokenRecs
  cases h : g.tokenOk tok.address with
  | true => simp [basicSpenderTask_foldl]
  | false => simp

lemma basicTokens_foldl (ch : ChainClient) (g : TokenGate) (spenders : List Address)
    (w : Address) (tokens : List TokenInput) (st : RunState) :
    tokens.foldl (basicTokenStep ch g spenders w) st =
      { results := st.results ++ tokens.flatMap (basicTokenRecs ch g spenders w)
        completedTasks := st.completedTasks + tokens.length * spenders.length } := by
  induction tokens generalizing st with
  | nil => simp
  | cons tok rest ih =>
      simp only [List.foldl_cons, List.flatMap_cons, basicTokenStep_eq, ih,
        RunState.mk.injEq, List.length_cons]
      constructor
      · simp
      · ring

lemma basicAddresses_foldl (ch : ChainClient) (g : TokenGate) (spenders : List Address)
    (addresses : List Address) (tokens : List TokenInput) (st : RunState) :
    addresses.foldl
        (fun st addr => tokens.foldl (basicTokenStep ch g spenders addr) st) st =
      { results := st.results ++
          addresses.flatMap (fun a => tokens.flatMap (basicTokenRecs ch g spenders a))
        completedTasks := st.completedTasks +
          addresses.length * (tokens.length * spenders.length) } := by
  induction addresses generalizing st with
  | nil => simp
  | cons a rest ih =>
      rw [List.foldl_cons]
      show rest.foldl _ (tokens.foldl (basicTokenStep ch g spenders a) st) = _
      rw [basicTokens_foldl, ih]
      simp only [List.flatMap_cons, RunState.mk.injEq, List.length_cons]
      constructor
      · simp
      · ring

lemma checkApprovals_eq (ch : ChainClient) (g : TokenGate) (addresses : List Address)
    (tokens : List TokenInput) (spenders : List Address)
    (h : spenders.length ≠ 0) :
    checkApprovals ch g addresses tokens spenders =
      Except.ok
        { results := basicRunRecs ch g addresses tokens spenders
          completedTasks := addresses.length * (tokens.length * spenders.length) } := by
  unfold checkApprovals basicRunRecs
  rw [if_neg h, basicAddresses_foldl]
  simp

lemma advSpenderCheck_foldl (ch : ChainClient) (T : Address) (sym : String)
    (d : Nat) (pr : Option ℚ) (bal : Nat) (w : Address)
    (l : List Address) (acc : List ApprovalRecord) :
    l.foldl (advSpenderCheck ch T sym d pr bal w) acc =
      acc ++ l.filterMap (fun sp =>
        match ch.allowanceOf T w sp with
        | none => none
        | some al =>
            if al = 0 then none
            else some (buildRecord w T sym sp al bal d pr)) := by
  induction l generalizing acc with
  | nil => simp
  | cons sp rest ih =>
      simp only [List.foldl_cons, List.filterMap_cons, ih]
      cases h : ch.allowanceOf T w sp with
      | none => simp [advSpenderCheck, h]
      | some al =>
          by_cases hz : al = 0
          · simp [advSpenderCheck, h, hz]
          · simp [advSpenderCheck, h, hz]

lemma advAddressTask_eq (ch : ChainClient) (T : Address) (sym : String)
    (d : Nat) (pr : Option ℚ) (st : RunState) (w : Address) :
    advAddressTask ch T sym d pr st w =
      { results := st.results ++ advWalletRecs ch T sym d pr w
        completedTasks := st.completedTasks + 1 } := by
  unfold advAddressTask advWalletRecs
  cases h : ch.approvalEvents T w with
  | none => simp [h]
  | some evs => simp [h, advSpenderCheck_foldl]

lemma advAddresses_foldl (ch : ChainClient) (T : Address) (sym : String)
    (d : Nat) (pr : Option ℚ) (addresses : List Address) (st : RunState) :
    addresses.foldl (advAddressTask ch T sym d pr) st =
      { results := st.results ++ addresses.flatMap (advWalletRecs ch T sym d pr)
        completedTasks := st.completedTasks + addresses.length } := by
  induction addresses generalizing st with
  | nil => simp
  | cons w rest ih =>
      simp only [List.foldl_cons, List.flatMap_cons, advAddressTask_eq, ih,
        RunState.mk.injEq, List.length_cons]
      constructor
      · simp
      · omega

lemma advTokenStep_eq_ok (ch : ChainClient) (g : TokenGate) (addresses : List Address)
    (st : RunState) (tok : TokenInput) (h : g.tokenOk tok.address = true) :
    advTokenStep ch g addresses st tok =
      { results := st.results ++ advTokenRecs ch g addresses tok
        completedTasks := st.completedTasks + addresses.length } := by
  unfold advTokenStep advTokenRecs
  rw [if_pos h, if_pos h, advAddresses_foldl]

lemma advTokenStep_eq_fail (ch : ChainClient) (g : TokenGate) (addresses : List Address)
    (st : RunState) (tok : TokenInput) (h : g.tokenOk tok.address = false) :
    advTokenStep ch g addresses st tok =
      { results := st.results
        completedTasks := st.completedTasks +
          (addresses.length - st.completedTasks % addresses.length) } := by
  unfold advTokenStep
  rw [if_neg (by simp [h])]

lemma advTokenStep_eq (ch : ChainClient) (g : TokenGate) (addresses : List Address)
    (st : RunState) (tok : TokenInput)
    (hc : addresses.length ∣ st.completedTasks) (hlen : 0 < addresses.length) :
    advTokenStep ch g addresses st tok =
      { results := st.results ++ advTokenRecs ch g addresses tok
        completedTasks := st.completedTasks + addresses.length } := by
  cases h : g.tokenOk tok.address with
  | true => exact advTokenStep_eq_ok ch g addresses st tok h
  | false =>
      rw [advTokenStep_eq_fail ch g addresses st tok h]
      have h0 : st.completedTasks % addresses.length = 0 :=
        Nat.dvd_iff_mod_eq_zero.mp hc
      simp [advTokenRecs, h, h0]

lemma findAndCheckApprovals_eq (ch : ChainClient) (g : TokenGate)
    (addresses : List Address) (tokens : List TokenInput)
    (hlen : 0 < addresses.length) :
    findAndCheckApprovals ch g addresses tokens =
      { results := advRunRecs ch g addresses tokens
        completedTasks := tokens.length * addresses.length } := by
  unfold findAndCheckApprovals advRunRecs
  suffices h : ∀ st : RunState, addresses.length ∣ st.completedTasks →
      tokens.foldl (advTokenStep ch g addresses) st =
        { results := st.results ++ tokens.flatMap (advTokenRecs ch g addresses)
          completedTasks := st.completedTasks + tokens.length * addresses.length } by
    rw [h { results := [], completedTasks := 0 } ⟨0, rfl⟩]
    simp
  intro st hdvd
  induction tokens generalizing st with
  | nil => simp
  | cons tok rest ih =>
      rw [List.foldl_cons, advTokenStep_eq ch g addresses st tok hdvd hlen,
        ih _ (by exact Dvd.dvd.add hdvd ⟨1, by ring⟩)]
      simp only [List.flatMap_cons, RunState.mk.injEq, List.length_cons]
      constructor
      · simp
      · ring

/-! ### Deduplication lemmas -/

lemma mem_dedupFirstAux (seen l : List Address) (a : Address) :
    a ∈ dedupFirstAux seen l ↔ a ∈ l ∧ a ∉ seen := by
  induction l generalizing seen with
  | nil => simp [dedupFirstAux]
  | cons x xs ih =>
      unfold dedupFirstAux
      by_cases hx : x ∈ seen
      · rw [if_pos hx, ih]
        constructor
        · rintro ⟨h1, h2⟩
          exact ⟨List.mem_cons_of_mem x h1, h2⟩
        · rintro ⟨h1, h2⟩
          rcases List.mem_cons.mp h1 with rfl | h1
          · exact absurd hx h2
          · exact ⟨h1, h2⟩
      · rw [if_neg hx]
        simp only [List.mem_cons, ih, List.mem_cons]
        by_cases hax : a = x
        · subst hax
          tauto
        · tauto

lemma nodup_dedupFirstAux (seen l : List Address) :
    (dedupFirstAux seen l).Nodup := by
  induction l generalizing seen with
  | nil => exact List.nodup_nil
  | cons x xs ih =>
      unfold dedupFirstAux
      by_cases hx : x ∈ seen
      · rw [if_pos hx]; exact ih seen
      · rw [if_neg hx]
        refine List.Nodup.cons ?_ (ih (x :: seen))
        intro hmem
        exact ((mem_dedupFirstAux _ _ _).mp hmem).2 (List.mem_cons_self x seen)

lemma sublist_dedupFirstAux (seen l : List Address) :
    (dedupFirstAux seen l).Sublist l := by
  induction l generalizing seen with
  | nil => exact List.Sublist.refl []
  | cons x xs ih =>
      unfold dedupFirstAux
      by_cases hx : x ∈ seen
      · rw [if_pos hx]; exact (ih seen).cons x
      · rw [if_neg hx]; exact (ih (x :: seen)).cons₂ x

lemma mem_dedupFirst (l : List Address) (a : Address) :
    a ∈ dedupFirst l ↔ a ∈ l := by
  unfold dedupFirst
  rw [mem_dedupFirstAux]
  simp

lemma nodup_dedupFirst (l : List Address) : (dedupFirst l).Nodup :=
  nodup_dedupFirstAux [] l

lemma sublist_dedupFirst (l : List Address) : (dedupFirst l).Sublist l :=
  sublist_dedupFirstAux [] l

/-! ### Counting lemmas -/

lemma countP_flatMap {α β : Type} (l : List α) (f : α → List β) (p : β → Bool) :
    (l.flatMap f).countP p = (l.map (fun a => (f a).countP p)).sum := by
  induction l with
  | nil => simp
  | cons a rest ih => simp [List.flatMap_cons, List.countP_append, ih]

lemma sum_map_ite_count {α : Type} (l : List α) (f : α → Address) (x : Address)
    (c : Nat) :
    (l.map (fun t => if f t = x then c else 0)).sum = ((l.map f).count x) * c := by
  induction l with
  | nil => simp
  | cons t rest ih =>
      simp only [List.map_cons, List.sum_cons, ih, List.count_cons]
      by_cases h : f t = x
      · simp [h]
        ring
      · have hb : (f t == x) = false := beq_eq_false_iff_ne.mpr h
        simp [h, hb]

lemma countP_beq_and (l : List Address) (hl : l.Nodup) (s₀ : Address)
    (q : Address → Bool) :
    l.countP (fun x => (x == s₀) && q x) =
      if s₀ ∈ l ∧ q s₀ = true then 1 else 0 := by
  induction l with
  | nil => simp
  | cons x rest ih =>
      rcases List.nodup_cons.mp hl with ⟨hx, hrest⟩
      rw [List.countP_cons, ih hrest]
      by_cases hxs : x = s₀
      · subst hxs
        by_cases hq : q x = true
        · simp [hq, hx]
        · simp [hq]
      · have hsx : ¬s₀ = x := fun h => hxs h.symm
        by_cases hmem : s₀ ∈ rest
        · by_cases hq : q s₀ = true
          · simp [hxs, hsx, hmem, hq]
          · simp [hxs, hsx, hmem, hq]
        · simp [hxs, hsx, hmem]

/-! ### Field projections of `buildRecord` -/

@[simp] lemma buildRecord_walletAddress (w T sym sp : Address) (al bal d : Nat)
    (pr : Option ℚ) : (buildRecord w T sym sp al bal d pr).walletAddress = w := rfl

@[simp] lemma buildRecord_tokenAddress (w T sym sp : Address) (al bal d : Nat)
    (pr : Option ℚ) : (buildRecord w T sym sp al bal d pr).tokenAddress = T := rfl

@[simp] lemma buildRecord_spenderAddress (w T sym sp : Address) (al bal d : Nat)
    (pr : Option ℚ) : (buildRecord w T sym sp al bal d pr).spenderAddress = sp := rfl

@[simp] lemma buildRecord_rawAllowance (w T sym sp : Address) (al bal d : Nat)
    (pr : Option ℚ) : (buildRecord w T sym sp al bal d pr).rawAllowance = al := rfl

@[simp] lemma buildRecord_rawBalance (w T sym sp : Address) (al bal d : Nat)
    (pr : Option ℚ) : (buildRecord w T sym sp al bal d pr).rawBalance = bal := rfl

@[simp] lemma buildRecord_price (w T sym sp : Address) (al bal d : Nat)
    (pr : Option ℚ) : (buildRecord w T sym sp al bal d pr).price = pr := rfl

@[simp] lemma buildRecord_recordKey (w T sym sp : Address) (al bal d : Nat)
    (pr : Option ℚ) : recordKey (buildRecord w T sym sp al bal d pr) = (w, T, sp) := rfl

/-! ### Provenance of records in the two runs -/

lemma mem_basicRunRecs {ch : ChainClient} {g : TokenGate} {addresses : List Address}
    {tokens : List TokenInput} {spenders : List Address} {r : ApprovalRecord}
    (h : r ∈ basicRunRecs ch g addresses tokens spenders) :
    ∃ w tok sp al, w ∈ addresses ∧ tok ∈ tokens ∧ sp ∈ spenders ∧
      ch.allowanceOf tok.address w sp = some al ∧
      r = buildRecord w tok.address (tokenMeta ch tok).1 sp al
        ((ch.balanceOf tok.address w).getD 0)
        (tokenMeta ch tok).2.1 (tokenMeta ch tok).2.2 := by
  unfold basicRunRecs at h
  rcases List.mem_flatMap.mp h with ⟨w, hw, h⟩
  rcases List.mem_flatMap.mp h with ⟨tok, htok, h⟩
  unfold basicTokenRecs at h
  by_cases hok : g.tokenOk tok.address = true
  · rw [if_pos hok] at h
    rcases List.mem_filterMap.mp h with ⟨sp, hsp, hval⟩
    cases hal : ch.allowanceOf tok.address w sp with
    | none => simp only [hal, Option.map_none'] at hval; exact absurd hval (by simp)
    | some al =>
        simp only [hal, Option.map_some', Option.some.injEq] at hval
        exact ⟨w, tok, sp, al, hw, htok, hsp, hal, hval.symm⟩
  · rw [if_neg hok] at h
    simp at h

lemma mem_advRunRecs {ch : ChainClient} {g : TokenGate} {addresses : List Address}
    {tokens : List TokenInput} {r : ApprovalRecord}
    (h : r ∈ advRunRecs ch g addresses tokens) :
    ∃ w tok sp al evs, w ∈ addresses ∧ tok ∈ tokens ∧
      ch.approvalEvents tok.address w = some evs ∧ sp ∈ dedupFirst evs ∧
      ch.allowanceOf tok.address w sp = some al ∧ al ≠ 0 ∧
      r = buildRecord w tok.address (tokenMeta ch tok).1 sp al
        ((ch.balanceOf tok.address w).getD 0)
        (tokenMeta ch tok).2.1 (tokenMeta ch tok).2.2 := by
  unfold advRunRecs at h
  rcases List.mem_flatMap.mp h with ⟨tok, htok, h⟩
  unfold advTokenRecs at h
  by_cases hok : g.tokenOk tok.address = true
  · rw [if_pos hok] at h
    rcases List.mem_flatMap.mp h with ⟨w, hw, h⟩
    unfold advWalletRecs at h
    cases hev : ch.approvalEvents tok.address w with
    | none => rw [hev] at h; simp at h
    | some evs =>
        rw [hev] at h
        rcases List.mem_filterMap.mp h with ⟨sp, hsp, hval⟩
        cases hal : ch.allowanceOf tok.address w sp with
        | none => simp only [hal] at hval; exact absurd hval (by simp)
        | some al =>
            simp only [hal] at hval
            by_cases hz : al = 0
            · rw [if_pos hz] at hval; simp at hval
            · rw [if_neg hz] at hval
              simp only [Option.some.injEq] at hval
              exact ⟨w, tok, sp, al, evs, hw, htok, hev, hsp, hal, hz, hval.symm⟩
  · rw [if_neg hok] at h
    simp at h

lemma advTokenStep_results (ch : ChainClient) (g : TokenGate) (addresses : List Address)
    (st : RunState) (tok : TokenInput) :
    (advTokenStep ch g addresses st tok).results =
      st.results ++ advTokenRecs ch g addresses tok := by
  cases h : g.tokenOk tok.address with
  | true => rw [advTokenStep_eq_ok ch g addresses st tok h]
  | false =>
      rw [advTokenStep_eq_fail ch g addresses st tok h]
      simp [advTokenRecs, h]

lemma findAndCheckApprovals_results (ch : ChainClient) (g : TokenGate)
    (addresses : List Address) (tokens : List TokenInput) :
    (findAndCheckApprovals ch g addresses tokens).results =
      advRunRecs ch g addresses tokens := by
  unfold findAndCheckApprovals advRunRecs
  suffices h : ∀ st : RunState,
      (tokens.foldl (advTokenStep ch g addresses) st).results =
        st.results ++ tokens.flatMap (advTokenRecs ch g addresses) by
    rw [h]; simp
  intro st
  induction tokens generalizing st with
  | nil => simp
  | cons tok rest ih =>
      rw [List.foldl_cons, ih, advTokenStep_results]
      simp [List.flatMap_cons]

/-! ### Exposure well-formedness of a single record -/

lemma buildRecord_exposure (w T sym sp : Address) (al bal d : Nat) (pr : Option ℚ) :
    ((buildRecord w T sym sp al bal d pr).isInfiniteApproval = false →
      (buildRecord w T sym sp al bal d pr).rawExposedAmount =
        min (buildRecord w T sym sp al bal d pr).rawAllowance
          (buildRecord w T sym sp al bal d pr).rawBalance)
    ∧ ((buildRecord w T sym sp al bal d pr).isInfiniteApproval = true →
      (buildRecord w T sym sp al bal d pr).rawExposedAmount =
        (buildRecord w T sym sp al bal d pr).rawBalance)
    ∧ (buildRecord w T sym sp al bal d pr).rawExposedAmount ≤
        (buildRecord w T sym sp al bal d pr).rawBalance := by
  by_cases hinf : al = maxUint256
  · simp [buildRecord, hinf]
  · have hb : (al == maxUint256) = false := beq_eq_false_iff_ne.mpr hinf
    by_cases hgt : al > bal
    · have hle : ¬al ≤ bal := by omega
      simp [buildRecord, hb, hgt, Nat.min_def, hle]
    · have hle : al ≤ bal := by omega
      simp [buildRecord, hb, hgt, Nat.min_def, hle]

/-- Concrete oracle used by the witness runs: metadata `("TKN", 0)`,
balance 7, allowance 5, one discovered spender `"s"`. -/
def witChain : ChainClient :=
  { symbolDecimals := fun _ => some ("TKN", 0)
    balanceOf := fun _ _ => some 7
    allowanceOf := fun _ _ _ => some 5
    approvalEvents := fun _ _ => some ["s"] }

/-- Token gate on which every token succeeds. -/
def witGate : TokenGate := { tokenOk := fun _ => true }

/-- C1: every ApprovalRecord produced by either mode satisfies
`rawExposedAmount = min rawAllowance rawBalance` when the record is not
an infinite approval, `rawExposedAmount = rawBalance` when it is, and
consequently `rawExposedAmount ≤ rawBalance` in all cases. -/
theorem exposure_invariant (ch : ChainClient) (g : TokenGate)
    (addresses spenders : List Address) (tokens : List TokenInput)
    (r : ApprovalRecord)
    (hr : r ∈ (findAndCheckApprovals ch g addresses tokens).results ∨
      ∃ st, checkApprovals ch g addresses tokens spenders = Except.ok st ∧
        r ∈ st.results) :
    (r.isInfiniteApproval = false →
      r.rawExposedAmount = min r.rawAllowance r.rawBalance)
    ∧ (r.isInfiniteApproval = true → r.rawExposedAmount = r.rawBalance)
    ∧ r.rawExposedAmount ≤ r.rawBalance := by
  have hb : ∃ w T sym sp al bal d pr, r = buildRecord w T sym sp al bal d pr := by
    rcases hr with hr | ⟨st, hst, hr⟩
    · rw [findAndCheckApprovals_results] at hr
      rcases mem_advRunRecs hr with ⟨w, tok, sp, al, evs, _, _, _, _, _, _, hreq⟩
      exact ⟨w, tok.address, _, sp, al, _, _, _, hreq⟩
    · by_cases hsp : spenders.length = 0
      · rw [checkApprovals, if_pos hsp] at hst
        exact absurd hst (by simp)
      · rw [checkApprovals_eq ch g addresses tokens spenders hsp] at hst
        simp only [Except.ok.injEq] at hst
        rw [← hst] at hr
        rcases mem_basicRunRecs hr with ⟨w, tok, sp, al, _, _, _, _, hreq⟩
        exact ⟨w, tok.address, _, sp, al, _, _, _, hreq⟩
  rcases hb with ⟨w, T, sym, sp, al, bal, d, pr, rfl⟩
  exact buildRecord_exposure w T sym sp al bal d pr

/-- Witness for C1 at a concrete advanced-mode run. -/
theorem exposure_invariant_witness :
    (buildRecord "w" "t" "TKN" "s" 5 7 0 none).rawExposedAmount ≤
      (buildRecord "w" "t" "TKN" "s" 5 7 0 none).rawBalance :=
  (exposure_invariant witChain witGate ["w"] ["s"] [⟨"t", none⟩]
    (buildRecord "w" "t" "TKN" "s" 5 7 0 none)
    (Or.inl (by decide))).2.2

/-- C2: `isInfiniteApproval` holds iff the raw allowance is exactly
`2^256 - 1`; an infinite allowance renders as the string "∞", a smaller
one (however large) is not infinite and renders numerically. -/
theorem infinite_approval_sentinel (wallet tokenAddress symbol spender : Address)
    (allowance balance decimals : Nat) (price : Option ℚ) :
    ((buildRecord wallet tokenAddress symbol spender allowance balance decimals
        price).isInfiniteApproval = true ↔ allowance = 2 ^ 256 - 1)
    ∧ (allowance = 2 ^ 256 - 1 →
        (buildRecord wallet tokenAddress symbol spender allowance balance decimals
          price).allowance = "∞")
    ∧ (allowance < 2 ^ 256 - 1 →
        (buildRecord wallet tokenAddress symbol spender allowance balance decimals
            price).isInfiniteApproval = false ∧
          (buildRecord wallet tokenAddress symbol spender allowance balance decimals
            price).allowance = formatUnits allowance decimals) := by
  refine ⟨?_, ?_, ?_⟩
  · constructor
    · intro h
      by_contra hne
      have hb : (allowance == maxUint256) = false :=
        beq_eq_false_iff_ne.mpr (by simpa [maxUint256] using hne)
      simp [buildRecord, hb] at h
    · intro h
      simp [buildRecord, maxUint256, h]
  · intro h
    simp [buildRecord, maxUint256, h]
  · intro h
    have hb : (allowance == maxUint256) = false :=
      beq_eq_false_iff_ne.mpr (by simp [maxUint256]; omega)
    simp [buildRecord, hb]

/-- Witness for C2: `2^255` is large but not infinite. -/
theorem infinite_approval_sentinel_witness :
    (buildRecord "w" "t" "X" "s" (2 ^ 255) 7 18 none).isInfiniteApproval = false ∧
      (buildRecord "w" "t" "X" "s" (2 ^ 255) 7 18 none).allowance =
        formatUnits (2 ^ 255) 18 :=
  (infinite_approval_sentinel "w" "t" "X" "s" (2 ^ 255) 7 18 none).2.2
    (by norm_num)

/-- C5: spender discovery returns each distinct spender of the event
log exactly once, in first-occurrence order (the result is a
duplicate-free sublist of the log with the same members). -/
theorem spender_discovery_unique (evs : List Address) :
    (dedupFirst evs).Nodup
    ∧ (∀ s, s ∈ dedupFirst evs ↔ s ∈ evs)
    ∧ (∀ s, s ∈ evs → (dedupFirst evs).count s = 1)
    ∧ (dedupFirst evs).Sublist evs := by
  refine ⟨nodup_dedupFirst evs, fun s => mem_dedupFirst evs s, fun s hs => ?_,
    sublist_dedupFirst evs⟩
  exact List.count_eq_one_of_mem (nodup_dedupFirst evs)
    ((mem_dedupFirst evs s).mpr hs)

/-- Witness for C5: a log with two events from the same spender
contributes that spender once. -/
theorem spender_discovery_unique_witness :
    (dedupFirst ["a", "a"]).count "a" = 1 :=
  (spender_discovery_unique ["a", "a"]).2.2.1 "a" (by decide)

/-- C8: price resolution takes the explicit caller price when present,
else 1 for a stablecoin symbol, else null; a record built with an
unknown price has `exposedValueUSD = null`. -/
theorem price_resolution_policy (p : ℚ) (symbol : String)
    (wallet tokenAddress spender : Address) (allowance balance decimals : Nat) :
    resolvePrice (some p) symbol = some p
    ∧ (symbol ∈ stablecoinSymbols → resolvePrice none symbol = some 1)
    ∧ (symbol ∉ stablecoinSymbols → resolvePrice none symbol = none)
    ∧ (buildRecord wallet tokenAddress symbol spender allowance balance decimals
        none).exposedValueUSD = none
    ∧ (∀ (ch : ChainClient) (T : Address) (d : Nat) (explicit : Option ℚ),
        ch.symbolDecimals T = some (symbol, d) →
          (tokenMeta ch ⟨T, explicit⟩).2.2 = resolvePrice explicit symbol) := by
  refine ⟨rfl, ?_, ?_, ?_, ?_⟩
  · intro h
    simp [resolvePrice, h]
  · intro h
    simp [resolvePrice, h]
  · simp [buildRecord]
  · intro ch T d explicit h
    simp [tokenMeta, h]

/-- Witness for C8: "USDT" infers price 1, "WETH" infers no price. -/
theorem price_resolution_policy_witness :
    resolvePrice none "USDT" = some 1 ∧ resolvePrice none "WETH" = none :=
  ⟨(price_resolution_policy 1 "USDT" "w" "t" "s" 0 0 0).2.1 (by decide),
   (price_resolution_policy 1 "WETH" "w" "t" "s" 0 0 0).2.2.1 (by decide)⟩

/-- C10: an empty spender list in basic mode is fatal: the run exits
with code 1 before any work item executes and produces no results. -/
theorem empty_spender_fatal (ch : ChainClient) (g : TokenGate)
    (addresses : List Address) (tokens : List TokenInput)
    (spenders : List Address) (h : spenders = []) :
    checkApprovals ch g addresses tokens spenders = Except.error 1 := by
  subst h
  simp [checkApprovals]

/-- Witness for C10 on a concrete configuration. -/
theorem empty_spender_fatal_witness :
    checkApprovals witChain witGate ["w"] [⟨"t", none⟩] [] = Except.error 1 :=
  empty_spender_fatal witChain witGate ["w"] [⟨"t", none⟩] [] rfl

/-- Token gate failing exactly on the token address "bad", used to
exercise the per-token catch paths in witnesses. -/
def witGateBad : TokenGate := { tokenOk := fun t => t != "bad" }

/-- C4: after a run ends, however many per-item or per-token failures
occurred, the completed-task counter equals the total task count
(`tokens × addresses` in advanced mode, `addresses × tokens × spenders`
in basic mode). -/
theorem progress_counter_total (ch : ChainClient) (g : TokenGate)
    (addresses spenders : List Address) (tokens : List TokenInput)
    (ha : 0 < addresses.length) :
    (findAndCheckApprovals ch g addresses tokens).completedTasks =
      tokens.length * addresses.length
    ∧ (∀ st, checkApprovals ch g addresses tokens spenders = Except.ok st →
        st.completedTasks = addresses.length * tokens.length * spenders.length) := by
  constructor
  · rw [findAndCheckApprovals_eq ch g addresses tokens ha]
  · intro st hst
    by_cases hsp : spenders.length = 0
    · rw [checkApprovals, if_pos hsp] at hst
      exact absurd hst (by simp)
    · rw [checkApprovals_eq ch g addresses tokens spenders hsp] at hst
      simp only [Except.ok.injEq] at hst
      rw [← hst]
      ring

/-- Witness for C4 on a run with a failing token and a failing
allowance call. -/
theorem progress_counter_total_witness :
    (findAndCheckApprovals
      { witChain with allowanceOf := fun _ _ _ => none }
      witGateBad ["w1", "w2"] [⟨"t", none⟩, ⟨"bad", none⟩]).completedTasks = 4 := by
  have h := (progress_counter_total
    { witChain with allowanceOf := fun _ _ _ => none }
    witGateBad ["w1", "w2"] ["s"] [⟨"t", none⟩, ⟨"bad", none⟩] (by decide)).1
  simpa using h

/-! ### Progress reporter lemmas -/

lemma intLog2_eq_of (q : ℚ) (e : ℤ) (h0 : 0 < q) (h1 : (2 : ℚ) ^ e ≤ q)
    (h2 : q < (2 : ℚ) ^ (e + 1)) : Int.log 2 q = e := by
  have hle : e ≤ Int.log 2 q :=
    (Int.zpow_le_iff_le_log (by norm_num) h0).mp (by exact_mod_cast h1)
  have hlt : Int.log 2 q < e + 1 :=
    (Int.lt_zpow_iff_log_lt (by norm_num) h0).mp (by exact_mod_cast h2)
  omega

lemma roundDouble_eq_of (q : ℚ) (e : ℤ) (h0 : 0 < q) (h1 : (2 : ℚ) ^ e ≤ q)
    (h2 : q < (2 : ℚ) ^ (e + 1)) :
    roundDouble q = (roundNearestEven (q / 2 ^ (e - 52)) : ℚ) * 2 ^ (e - 52) := by
  unfold roundDouble
  rw [if_neg (ne_of_gt h0), intLog2_eq_of q e h0 h1 h2]

lemma roundNearestEven_eq_of_lt (q : ℚ) (n : ℤ) (h1 : (n : ℚ) ≤ q)
    (h2 : q < n + 1) (hr : q - n < 1/2) : roundNearestEven q = n := by
  have hf : ⌊q⌋ = n := Int.floor_eq_iff.mpr ⟨h1, h2⟩
  unfold roundNearestEven
  rw [hf, if_pos hr]

/-- The binary64 value of 29/100 (the double `0.29`, slightly below the
rational 0.29). -/
lemma roundDouble_29_div_100 :
    roundDouble ((29 : ℚ) / 100) = (5224175567749775 : ℚ) * 2 ^ (-54 : ℤ) := by
  rw [roundDouble_eq_of ((29 : ℚ) / 100) (-2) (by norm_num) (by norm_num)
    (by norm_num)]
  norm_num
  rw [roundNearestEven_eq_of_lt _ 5224175567749775 (by norm_num)
    (by push_cast; norm_num) (by push_cast; norm_num)]
  push_cast
  ring

/-- The binary64 product `0.29 * 100`, which is `28.999999999999996`:
one ulp below 29. -/
lemma roundDouble_29_times_100 :
    roundDouble ((5224175567749775 : ℚ) * 2 ^ (-54 : ℤ) * 100) =
      (8162774324609023 : ℚ) * 2 ^ (-48 : ℤ) := by
  rw [roundDouble_eq_of _ 4 (by norm_num) (by norm_num) (by norm_num)]
  norm_num
  rw [roundNearestEven_eq_of_lt _ 8162774324609023 (by push_cast; norm_num)
    (by push_cast; norm_num) (by push_cast; norm_num)]
  push_cast
  ring

lemma percentOfJS_29_100 : percentOfJS 29 100 = 28 := by
  unfold percentOfJS
  rw [show ((29 : ℕ) : ℚ) / ((100 : ℕ) : ℚ) = (29 : ℚ) / 100 by norm_num,
    roundDouble_29_div_100, roundDouble_29_times_100]
  exact Int.floor_eq_iff.mpr ⟨by push_cast; norm_num, by push_cast; norm_num⟩

/-- C9 counterexample: at 29 of 100 completed tasks the program's
double arithmetic gives `Math.floor((29/100)*100) = 28` while the exact
integer percentage `⌊29/100 · 100⌋ = 29` has strictly increased past
`lastProgress = 28` — so with no force and less than 500ms elapsed the
reporter stays silent although the claim's emission condition holds. -/
theorem float_percent_skips_emission :
    percentOfJS 29 100 = 28
    ∧ (28 : ℤ) < ⌊((29 : ℚ) / 100) * 100⌋
    ∧ (updateProgress ⟨false, 100, 0, 0, 28, 29, 100⟩).emitted = false := by
  refine ⟨percentOfJS_29_100, by norm_num, ?_⟩
  have hlt : ¬((28 : ℤ) < percentOfJS 29 100) := by
    rw [percentOfJS_29_100]
    omega
  unfold updateProgress
  rw [if_neg (by simp [hlt]; norm_num)]

/-- C9 as amended: a status line is emitted iff the update is forced,
500ms have elapsed since the last emission, or the integer percentage
as the program computes it in binary64 —
`Math.floor(fl(fl(completed/total) · 100))` — strictly increased; the
ETA on an emitted line is `(elapsed / completed) · (total − completed)`
when `completed > 0` and the "computing" placeholder (`none`) when
`completed = 0`. -/
theorem progress_emission_and_eta (p : ProgressInput) (ht : 0 < p.totalTasks) :
    ((updateProgress p).emitted = true ↔
      (p.force = true ∨ 500 ≤ p.now - p.lastUpdate ∨
        p.lastProgress <
          ⌊roundDouble (roundDouble ((p.completedTasks : ℚ) / p.totalTasks) * 100)⌋))
    ∧ ((updateProgress p).emitted = true →
        (p.completedTasks = 0 → (updateProgress p).eta = none)
        ∧ (0 < p.completedTasks → (updateProgress p).eta =
            some ((p.now - p.startTime) / 1000 / p.completedTasks *
              ((p.totalTasks : ℚ) - p.completedTasks)))) := by
  constructor
  · unfold updateProgress
    show _ ↔ (_ ∨ _ ∨ p.lastProgress < percentOfJS p.completedTasks p.totalTasks)
    by_cases hf : p.force = true
    · simp [hf]
    · by_cases h5 : 500 ≤ p.now - p.lastUpdate
      · simp [hf, h5]
      · by_cases hp : p.lastProgress < percentOfJS p.completedTasks p.totalTasks
        · simp [hf, h5, hp]
        · simp [hf, h5, hp]
  · intro hemit
    have hcond : (p.force || decide (500 ≤ p.now - p.lastUpdate) ||
        decide (p.lastProgress < percentOfJS p.completedTasks p.totalTasks)) = true := by
      by_contra hc
      unfold updateProgress at hemit
      rw [if_neg (by simpa using hc)] at hemit
      exact absurd hemit (by simp)
    constructor
    · intro h0
      unfold updateProgress
      rw [if_pos (by simpa using hcond)]
      simp [etaSeconds, h0]
    · intro h0
      unfold updateProgress
      rw [if_pos (by simpa using hcond)]
      simp only [etaSeconds]
      rw [if_neg (by omega)]

/-- Witness for the amended C9 on a forced update with one completed
task. -/
theorem progress_emission_and_eta_witness :
    (updateProgress ⟨true, 2000, 0, 1900, 0, 1, 10⟩).eta =
      some ((2000 - 0) / 1000 / 1 * ((10 : ℚ) - 1)) := by
  have h := progress_emission_and_eta ⟨true, 2000, 0, 1900, 0, 1, 10⟩ (by decide)
  have hemit : (updateProgress ⟨true, 2000, 0, 1900, 0, 1, 10⟩).emitted = true :=
    h.1.mpr (Or.inl rfl)
  exact (h.2 hemit).2 (by decide)

/-! ### Display policy lemmas -/

lemma mem_foldl_dedupMerge (cond : List ApprovalRecord → ApprovalRecord → Bool)
    (l : List ApprovalRecord) (init : List ApprovalRecord) (x : ApprovalRecord)
    (hx : x ∈ l.foldl (fun acc r => if cond acc r then acc else acc ++ [r]) init) :
    x ∈ init ∨ x ∈ l := by
  induction l generalizing init with
  | nil => exact Or.inl hx
  | cons r rest ih =>
      rw [List.foldl_cons] at hx
      rcases ih _ hx with h | h
      · by_cases hc : cond init r = true
        · rw [if_pos hc] at h
          exact Or.inl h
        · rw [if_neg hc] at h
          rcases List.mem_append.mp h with h | h
          · exact Or.inl h
          · simp only [List.mem_singleton] at h
            subst h
            exact Or.inr (List.mem_cons_self x rest)
      · exact Or.inr (List.mem_cons_of_mem r h)

lemma mem_selectImportant (results : List ApprovalRecord) (x : ApprovalRecord)
    (hx : x ∈ selectImportant results) : x ∈ results := by
  unfold selectImportant at hx
  have hx' := List.mem_of_mem_take hx
  rcases mem_foldl_dedupMerge _ _ _ _ hx' with h | h
  · have h1 := List.mem_of_mem_take h
    unfold sortByValueDesc at h1
    have h2 := List.mem_mergeSort.mp h1
    exact (List.mem_filter.mp h2).1
  · have h1 := List.mem_of_mem_take h
    exact (List.mem_filter.mp h1).1

/-- C7: beyond the ceiling of 100 records, the subset selected for
display (the top 50 by known USD value merged with up to 50 infinite
approvals, deduplicated by wallet/token/spender) has at most 100
records, each drawn from the collection; the exported CSV always has
one line per record of the complete collection, and the summary
statistics are computed over the complete collection. -/
theorem display_policy_truncation (results : List ApprovalRecord)
    (h : results.length > maxDisplayRows) :
    displaySelection results = selectImportant results
    ∧ (displaySelection results).length ≤ maxDisplayRows
    ∧ (∀ r ∈ displaySelection results, r ∈ results)
    ∧ (exportCsvLines results).length = results.length + 1
    ∧ (computeSummary results).exposedValueCount =
        results.countP (fun r => r.exposedValueUSD.isSome)
    ∧ (computeSummary results).infiniteApprovals =
        results.countP (fun r => r.isInfiniteApproval) := by
  have hd : displaySelection results = selectImportant results := by
    unfold displaySelection
    rw [if_pos h]
  refine ⟨hd, ?_, ?_, ?_, ?_, ?_⟩
  · rw [hd]
    unfold selectImportant
    exact List.length_take_le _ _
  · intro r hr
    rw [hd] at hr
    exact mem_selectImportant results r hr
  · simp [exportCsvLines]
  · simp [computeSummary, List.length_filterMap_eq_countP]
  · simp [computeSummary, List.countP_eq_length_filter]

/-- Witness for C7 on a collection of 150 identical records. -/
theorem display_policy_truncation_witness :
    (displaySelection
      (List.replicate 150 (buildRecord "w" "t" "TKN" "s" 5 7 0 none))).length ≤
      maxDisplayRows := by
  have h := display_policy_truncation
    (List.replicate 150 (buildRecord "w" "t" "TKN" "s" 5 7 0 none))
    (by simp [maxDisplayRows])
  exact h.2.1

/-! ### Counting records per (wallet, token, spender) triple -/

/-- Whether a record belongs to the given (wallet, token, spender) key. -/
def keyMatch (a₀ T₀ s₀ : Address) (r : ApprovalRecord) : Bool :=
  recordKey r == (a₀, T₀, s₀)

lemma countP_filterMap_some {α β : Type} (l : List α) (g : α → β) (p : β → Bool) :
    (l.filterMap (fun x => some (g x))).countP p = l.countP (fun x => p (g x)) := by
  induction l with
  | nil => simp
  | cons x rest ih => simp [List.filterMap_cons, List.countP_cons, ih]

lemma countP_filterMap_ite {α β : Type} (l : List α) (c : α → Bool) (g : α → β)
    (p : β → Bool) :
    (l.filterMap (fun x => if c x then none else some (g x))).countP p =
      l.countP (fun x => !c x && p (g x)) := by
  induction l with
  | nil => simp
  | cons x rest ih =>
      by_cases hc : c x = true
      · simp [List.filterMap_cons, hc, List.countP_cons, ih]
      · simp [List.filterMap_cons, hc, List.countP_cons, ih]

lemma keyMatch_buildRecord (a₀ T₀ s₀ w T sym sp : Address) (al bal d : Nat)
    (pr : Option ℚ) :
    keyMatch a₀ T₀ s₀ (buildRecord w T sym sp al bal d pr) =
      ((w == a₀) && ((T == T₀) && (sp == s₀))) := rfl

lemma countP_basicTokenRecs (ch : ChainClient) (g : TokenGate)
    (spenders : List Address) (a a₀ s₀ : Address) (tok : TokenInput)
    (t₀addr : Address) (val : Address → Address → Address → Nat)
    (hall : ∀ t w s, ch.allowanceOf t w s = some (val t w s))
    (hok : g.tokenOk tok.address = true) :
    (basicTokenRecs ch g spenders a tok).countP (keyMatch a₀ t₀addr s₀) =
      if a = a₀ ∧ tok.address = t₀addr then spenders.count s₀ else 0 := by
  unfold basicTokenRecs
  rw [if_pos hok]
  rw [List.filterMap_congr (g := fun sp =>
    some (buildRecord a tok.address (tokenMeta ch tok).1 sp (val tok.address a sp)
      ((ch.balanceOf tok.address a).getD 0) (tokenMeta ch tok).2.1
      (tokenMeta ch tok).2.2)) (by intro sp _; rw [hall]; rfl)]
  rw [countP_filterMap_some]
  by_cases ha : a = a₀
  · by_cases hT : tok.address = t₀addr
    · rw [if_pos ⟨ha, hT⟩]
      refine List.countP_congr ?_ ▸ rfl
      intro sp _
      rw [keyMatch_buildRecord]
      simp [ha, hT]
    · rw [if_neg (by tauto)]
      rw [List.countP_eq_zero.mpr]
      intro sp _
      rw [keyMatch_buildRecord]
      simp [hT]
  · rw [if_neg (by tauto)]
    rw [List.countP_eq_zero.mpr]
    intro sp _
    rw [keyMatch_buildRecord]
    simp [ha]

lemma countP_filterMap_pite {α β : Type} (l : List α) (c : α → Prop)
    [DecidablePred c] (g : α → β) (p : β → Bool) :
    (l.filterMap (fun x => if c x then none else some (g x))).countP p =
      l.countP (fun x => !decide (c x) && p (g x)) := by
  induction l with
  | nil => simp
  | cons x rest ih =>
      by_cases hc : c x
      · simp [List.filterMap_cons, hc, List.countP_cons, ih]
      · simp [List.filterMap_cons, hc, List.countP_cons, ih]

lemma mem_advWalletRecs {ch : ChainClient} {T sym : Address} {d : Nat}
    {pr : Option ℚ} {w : Address} {r : ApprovalRecord}
    (h : r ∈ advWalletRecs ch T sym d pr w) :
    ∃ evs sp al, ch.approvalEvents T w = some evs ∧ sp ∈ dedupFirst evs ∧
      ch.allowanceOf T w sp = some al ∧ al ≠ 0 ∧
      r = buildRecord w T sym sp al ((ch.balanceOf T w).getD 0) d pr := by
  unfold advWalletRecs at h
  cases hev : ch.approvalEvents T w with
  | none => rw [hev] at h; simp at h
  | some evs =>
      rw [hev] at h
      rcases List.mem_filterMap.mp h with ⟨sp, hsp, hval⟩
      cases hal : ch.allowanceOf T w sp with
      | none => simp only [hal] at hval; exact absurd hval (by simp)
      | some al =>
          simp only [hal] at hval
          by_cases hz : al = 0
          · rw [if_pos hz] at hval; simp at hval
          · rw [if_neg hz] at hval
            simp only [Option.some.injEq] at hval
            exact ⟨evs, sp, al, rfl, hsp, hal, hz, hval.symm⟩

lemma countP_advWalletRecs_ne (ch : ChainClient) (T sym : Address) (d : Nat)
    (pr : Option ℚ) (w a₀ T₀ s₀ : Address) (h : ¬(w = a₀ ∧ T = T₀)) :
    (advWalletRecs ch T sym d pr w).countP (keyMatch a₀ T₀ s₀) = 0 := by
  rw [List.countP_eq_zero]
  intro r hr
  rcases mem_advWalletRecs hr with ⟨evs, sp, al, _, _, _, _, rfl⟩
  rw [keyMatch_buildRecord]
  by_cases hw : w = a₀
  · have hT : ¬T = T₀ := fun hT => h ⟨hw, hT⟩
    simp [hT]
  · simp [hw]

lemma countP_advWalletRecs_hit (ch : ChainClient) (sym : Address) (d : Nat)
    (pr : Option ℚ) (a₀ T₀ s₀ : Address) (evs : List Address)
    (val : Address → Address → Address → Nat)
    (hall : ∀ t w s, ch.allowanceOf t w s = some (val t w s))
    (hevs : ch.approvalEvents T₀ a₀ = some evs) :
    (advWalletRecs ch T₀ sym d pr a₀).countP (keyMatch a₀ T₀ s₀) =
      if s₀ ∈ evs ∧ val T₀ a₀ s₀ ≠ 0 then 1 else 0 := by
  unfold advWalletRecs
  simp only [hevs]
  rw [List.filterMap_congr (g := fun sp =>
    if val T₀ a₀ sp = 0 then none
    else some (buildRecord a₀ T₀ sym sp (val T₀ a₀ sp)
      ((ch.balanceOf T₀ a₀).getD 0) d pr)) (by intro sp _; rw [hall])]
  rw [countP_filterMap_pite]
  rw [List.countP_congr (q := fun sp =>
    (sp == s₀) && !decide (val T₀ a₀ sp = 0)) ?_]
  · rw [countP_beq_and _ (nodup_dedupFirst evs)]
    by_cases hmem : s₀ ∈ evs
    · by_cases hz : val T₀ a₀ s₀ = 0
      · rw [if_neg (by simp [hz]), if_neg (by tauto)]
      · rw [if_pos ⟨(mem_dedupFirst evs s₀).mpr hmem, by simp [hz]⟩,
          if_pos ⟨hmem, hz⟩]
    · rw [if_neg (by rw [mem_dedupFirst]; tauto), if_neg (by tauto)]
  · intro sp _
    rw [keyMatch_buildRecord]
    simp [Bool.and_comm]

/-- C3: under distinct inputs and a fully responsive oracle, a
(wallet, token, spender) triple yields exactly one record in basic mode
(zero allowances included), and in advanced mode exactly one record
when the spender appears in the event log with a non-zero allowance and
none otherwise. -/
theorem record_once_per_triple (ch : ChainClient) (g : TokenGate)
    (addresses spenders : List Address) (tokens : List TokenInput)
    (a₀ s₀ : Address) (t₀ : TokenInput) (evs : List Address)
    (val : Address → Address → Address → Nat)
    (hall : ∀ t w s, ch.allowanceOf t w s = some (val t w s))
    (hok : ∀ t, g.tokenOk t = true)
    (hnA : addresses.Nodup) (hnT : (tokens.map TokenInput.address).Nodup)
    (hnS : spenders.Nodup)
    (hmemA : a₀ ∈ addresses) (hmemT : t₀ ∈ tokens) (hmemS : s₀ ∈ spenders)
    (hevs : ch.approvalEvents t₀.address a₀ = some evs) :
    (∀ st, checkApprovals ch g addresses tokens spenders = Except.ok st →
        st.results.countP (keyMatch a₀ t₀.address s₀) = 1)
    ∧ (findAndCheckApprovals ch g addresses tokens).results.countP
        (keyMatch a₀ t₀.address s₀) =
      if s₀ ∈ evs ∧ val t₀.address a₀ s₀ ≠ 0 then 1 else 0 := by
  have hcount_s : spenders.count s₀ = 1 := List.count_eq_one_of_mem hnS hmemS
  have hcount_t : (tokens.map TokenInput.address).count t₀.address = 1 :=
    List.count_eq_one_of_mem hnT (List.mem_map_of_mem TokenInput.address hmemT)
  have hcount_a : addresses.count a₀ = 1 := List.count_eq_one_of_mem hnA hmemA
  constructor
  · intro st hst
    have hsp : spenders.length ≠ 0 := by
      have := List.length_pos_of_mem hmemS
      omega
    rw [checkApprovals_eq ch g addresses tokens spenders hsp] at hst
    simp only [Except.ok.injEq] at hst
    rw [← hst]
    show (basicRunRecs ch g addresses tokens spenders).countP
      (keyMatch a₀ t₀.address s₀) = 1
    unfold basicRunRecs
    rw [countP_flatMap]
    have inner : ∀ a,
        (tokens.flatMap (basicTokenRecs ch g spenders a)).countP
          (keyMatch a₀ t₀.address s₀) =
        if a = a₀ then spenders.count s₀ else 0 := by
      intro a
      rw [countP_flatMap]
      rw [List.map_eq_map_iff.mpr (fun tok _ =>
        countP_basicTokenRecs ch g spenders a a₀ s₀ tok t₀.address val hall
          (hok tok.address))]
      by_cases ha : a = a₀
      · subst ha
        rw [if_pos rfl]
        simp only [true_and]
        rw [sum_map_ite_count tokens TokenInput.address t₀.address
          (spenders.count s₀), hcount_t, one_mul]
      · rw [if_neg ha]
        simp only [ha, false_and, if_false]
        simp
    rw [List.map_eq_map_iff.mpr (fun a _ => inner a)]
    rw [sum_map_ite_count addresses (fun a => a) a₀ (spenders.count s₀)]
    simp only [List.map_id']
    rw [hcount_a, one_mul, hcount_s]
  · rw [findAndCheckApprovals_results]
    unfold advRunRecs
    rw [countP_flatMap]
    have tokCount : ∀ tok : TokenInput,
        (advTokenRecs ch g addresses tok).countP (keyMatch a₀ t₀.address s₀) =
        if tok.address = t₀.address then
          (if s₀ ∈ evs ∧ val t₀.address a₀ s₀ ≠ 0 then 1 else 0) else 0 := by
      intro tok
      unfold advTokenRecs
      rw [if_pos (hok tok.address)]
      rw [countP_flatMap]
      by_cases hT : tok.address = t₀.address
      · have perW : ∀ w : Address,
            (advWalletRecs ch tok.address (tokenMeta ch tok).1
              (tokenMeta ch tok).2.1 (tokenMeta ch tok).2.2 w).countP
              (keyMatch a₀ t₀.address s₀) =
            if w = a₀ then
              (if s₀ ∈ evs ∧ val t₀.address a₀ s₀ ≠ 0 then 1 else 0) else 0 := by
          intro w
          by_cases hw : w = a₀
          · subst hw
            rw [if_pos rfl, hT]
            exact countP_advWalletRecs_hit ch (tokenMeta ch tok).1
              (tokenMeta ch tok).2.1 (tokenMeta ch tok).2.2 w t₀.address s₀ evs
              val hall hevs
          · rw [if_neg hw,
              countP_advWalletRecs_ne ch tok.address (tokenMeta ch tok).1
                (tokenMeta ch tok).2.1 (tokenMeta ch tok).2.2 w a₀ t₀.address s₀
                (by tauto)]
        rw [List.map_eq_map_iff.mpr (fun w _ => perW w)]
        rw [sum_map_ite_count addresses (fun a => a) a₀ _]
        simp only [List.map_id']
        rw [hcount_a, one_mul, if_pos hT]
      · rw [if_neg hT]
        rw [List.map_eq_map_iff.mpr (fun w _ =>
          countP_advWalletRecs_ne ch tok.address (tokenMeta ch tok).1
            (tokenMeta ch tok).2.1 (tokenMeta ch tok).2.2 w a₀ t₀.address s₀
            (by tauto))]
        simp
    rw [List.map_eq_map_iff.mpr (fun tok _ => tokCount tok)]
    rw [sum_map_ite_count tokens TokenInput.address t₀.address _]
    rw [hcount_t, one_mul]

/-- Witness for C3 on a concrete one-wallet one-token advanced run. -/
theorem record_once_per_triple_witness :
    (findAndCheckApprovals witChain witGate ["w"] [⟨"t", none⟩]).results.countP
      (keyMatch "w" "t" "s") =
      if "s" ∈ ["s"] ∧ (5 : Nat) ≠ 0 then 1 else 0 :=
  (record_once_per_triple witChain witGate ["w"] ["s"] [⟨"t", none⟩] "w" "s"
    ⟨"t", none⟩ ["s"] (fun _ _ _ => 5) (fun _ _ _ => rfl) (fun _ => rfl)
    (by decide) (by decide) (by decide) (by decide) (by decide) (by decide)
    rfl).2

/-- Oracle whose balance call always fails while allowance and event
queries succeed. -/
def balanceFailChain : ChainClient :=
  { symbolDecimals := fun _ => some ("TKN", 0)
    balanceOf := fun _ _ => none
    allowanceOf := fun _ _ _ => some 5
    approvalEvents := fun _ _ => some ["s"] }

/-- C6 counterexample: the balance RPC call fails for the only work
item, yet both modes still produce an ApprovalRecord for it (with the
balance degraded to 0) — refuting "no ApprovalRecord is produced for
that item" for balance-call failures. -/
theorem balance_failure_still_records :
    balanceFailChain.balanceOf "t" "w" = none
    ∧ checkApprovals balanceFailChain witGate ["w"] [⟨"t", none⟩] ["s"] =
        Except.ok { results := [buildRecord "w" "t" "TKN" "s" 5 0 0 none]
                    completedTasks := 1 }
    ∧ (findAndCheckApprovals balanceFailChain witGate ["w"]
        [⟨"t", none⟩]).results = [buildRecord "w" "t" "TKN" "s" 5 0 0 none]
    ∧ recordKey (buildRecord "w" "t" "TKN" "s" 5 0 0 none) = ("w", "t", "s")
    ∧ (buildRecord "w" "t" "TKN" "s" 5 0 0 none).rawBalance = 0 := by
  refine ⟨rfl, rfl, by decide, rfl, rfl⟩

/-- Oracle whose allowance call always fails. -/
def allowFailChain : ChainClient :=
  { symbolDecimals := fun _ => some ("TKN", 0)
    balanceOf := fun _ _ => some 7
    allowanceOf := fun _ _ _ => none
    approvalEvents := fun _ _ => some ["s"] }

/-- C6 amended: a failed allowance call yields no record for its triple
in either mode, a failed event query yields no record at all for its
wallet/token pair in advanced mode, and in every case the failure is
confined to the item: the progress counter still reaches the full total
and the run completes (a failed balance call instead degrades the
balance to 0, so records may still be produced; see the
counterexample). -/
theorem rpc_failure_handling (ch : ChainClient) (g : TokenGate)
    (addresses spenders : List Address) (tokens : List TokenInput)
    (w t s : Address) (ha : 0 < addresses.length) :
    (ch.allowanceOf t w s = none →
      (∀ st, checkApprovals ch g addresses tokens spenders = Except.ok st →
          ∀ r ∈ st.results, recordKey r ≠ (w, t, s))
      ∧ ∀ r ∈ (findAndCheckApprovals ch g addresses tokens).results,
          recordKey r ≠ (w, t, s))
    ∧ (ch.approvalEvents t w = none →
        ∀ r ∈ (findAndCheckApprovals ch g addresses tokens).results,
          ¬(r.walletAddress = w ∧ r.tokenAddress = t))
    ∧ (findAndCheckApprovals ch g addresses tokens).completedTasks =
        tokens.length * addresses.length
    ∧ (spenders ≠ [] → ∃ st,
        checkApprovals ch g addresses tokens spenders = Except.ok st ∧
          st.completedTasks = addresses.length * tokens.length * spenders.length) := by
  refine ⟨?_, ?_, ?_, ?_⟩
  · intro hfail
    constructor
    · intro st hst r hr hkey
      by_cases hsp : spenders.length = 0
      · rw [checkApprovals, if_pos hsp] at hst
        exact absurd hst (by simp)
      · rw [checkApprovals_eq ch g addresses tokens spenders hsp] at hst
        simp only [Except.ok.injEq] at hst
        rw [← hst] at hr
        rcases mem_basicRunRecs hr with ⟨w', tok, sp, al, _, _, _, hal, rfl⟩
        rw [buildRecord_recordKey] at hkey
        rcases Prod.mk.injEq .. ▸ hkey with ⟨rfl, h2⟩
        rcases Prod.mk.injEq .. ▸ h2 with ⟨h2a, rfl⟩
        rw [h2a] at hal
        rw [hal] at hfail
        exact absurd hfail (by simp)
    · intro r hr hkey
      rw [findAndCheckApprovals_results] at hr
      rcases mem_advRunRecs hr with ⟨w', tok, sp, al, evs, _, _, _, _, hal, _, rfl⟩
      rw [buildRecord_recordKey] at hkey
      rcases Prod.mk.injEq .. ▸ hkey with ⟨rfl, h2⟩
      rcases Prod.mk.injEq .. ▸ h2 with ⟨h2a, rfl⟩
      rw [h2a] at hal
      rw [hal] at hfail
      exact absurd hfail (by simp)
  · intro hfail r hr ⟨hw, ht⟩
    rw [findAndCheckApprovals_results] at hr
    rcases mem_advRunRecs hr with ⟨w', tok, sp, al, evs, _, _, hev, _, _, _, rfl⟩
    rw [buildRecord_walletAddress] at hw
    rw [buildRecord_tokenAddress] at ht
    rw [hw] at hev
    rw [ht] at hev
    rw [hev] at hfail
    exact absurd hfail (by simp)
  · rw [findAndCheckApprovals_eq ch g addresses tokens ha]
  · intro hsp
    have hsp' : spenders.length ≠ 0 := by
      cases spenders with
      | nil => exact absurd rfl hsp
      | cons x xs => simp
    refine ⟨_, checkApprovals_eq ch g addresses tokens spenders hsp', ?_⟩
    ring

/-- Witness for the amended C6 on a run whose allowance calls all
fail: no records, full progress. -/
theorem rpc_failure_handling_witness :
    (findAndCheckApprovals allowFailChain witGate ["w"]
      [⟨"t", none⟩]).completedTasks = 1 := by
  have h := (rpc_failure_handling allowFailChain witGate ["w"] ["s"]
    [⟨"t", none⟩] "w" "t" "s" (by decide)).2.2.1
  simpa using h
